import Mathlib

/-!
A shallow embedding of the item repository implemented in `src/app.py`
(a small Flask archive service).  Pure Lean functions model the HTTP
handlers `upload`, `list_items`, `get_item`, `download` and `delete_item`;
server state (the sqlite `items` table and the uploads directory) is an
explicit record threaded through the operations.  Wall-clock timestamps,
the uploaded file, the form fields and the success of filesystem calls
are passed as explicit arguments, since the handlers read them from the
environment.
-/

namespace Heritage

/-! ### Character classes (ASCII), Python `str.strip` / `str.lower` -/

/-- ASCII uppercase letter, codes 65..90 (`A`..`Z`). -/
def isAsciiUpper (c : Char) : Bool := 65 ≤ c.toNat && c.toNat ≤ 90

/-- ASCII lowercase letter, codes 97..122 (`a`..`z`). -/
def isAsciiLowercase (c : Char) : Bool := 97 ≤ c.toNat && c.toNat ≤ 122

/-- ASCII digit, codes 48..57 (`0`..`9`). -/
def isAsciiDigit (c : Char) : Bool := 48 ≤ c.toNat && c.toNat ≤ 57

/-- ASCII alphanumeric character (`A-Za-z0-9`). -/
def isAsciiAlnum (c : Char) : Bool := isAsciiUpper c || isAsciiLowercase c || isAsciiDigit c

/-- ASCII whitespace: space 32, tab 9, newline 10, carriage return 13,
vertical tab 11, form feed 12.  Models the characters stripped by Python
`str.strip()` and split on by `str.split()` (restricted to ASCII). -/
def isPySpace (c : Char) : Bool :=
  c.toNat = 32 || c.toNat = 9 || c.toNat = 10 || c.toNat = 13 || c.toNat = 11 || c.toNat = 12

/-- Lower-casing of a single character, ASCII range only.  Models both
Python `str.lower` and SQLite `lower()` on the ASCII subset (SQLite's
`lower()` folds only `A-Z`; the service compares already-ASCII-folded
strings, so one folding function serves for both sides). -/
def pyLowerChar (c : Char) : Char :=
  if isAsciiUpper c then Char.ofNat (c.toNat + 32) else c

/-- Python `str.lower()` (ASCII model). -/
def pyLower (s : String) : String := ⟨s.data.map pyLowerChar⟩

/-- Remove the longest run of characters satisfying `p` from both ends. -/
def stripChars (p : Char → Bool) (l : List Char) : List Char :=
  ((l.dropWhile p).reverse.dropWhile p).reverse

/-- Python `str.strip()` with no argument: remove leading and trailing
whitespace (ASCII model). -/
def pyStrip (s : String) : String := ⟨stripChars isPySpace s.data⟩

/-! ### `werkzeug.utils.secure_filename` (used at `app.py` line 239)

Modelled from the library source of werkzeug 2.2.3 on a POSIX host
(`os.sep = "/"`, no `altsep`, not Windows); the Unicode NFKD
normalization step is approximated by its subsequent
`encode("ascii", "ignore")`, i.e. by dropping non-ASCII characters. -/

/-- Characters kept by werkzeug's `_filename_ascii_strip_re`
substitution: `[A-Za-z0-9_.-]` (everything else is removed). -/
def keepChar (c : Char) : Bool :=
  isAsciiAlnum c || c = '_' || c = '.' || c = '-'

/-- A dot or an underscore; `secure_filename` strips these from both ends. -/
def isDotUnderscore (c : Char) : Bool := c = '.' || c = '_'

/-- Helper for Python `str.split()` with no argument: split on runs of
whitespace, producing no empty words.  `acc` is the current word,
accumulated in reverse. -/
def splitWsAux : List Char → List Char → List (List Char)
  | [], acc => if acc.isEmpty then [] else [acc.reverse]
  | c :: cs, acc =>
    if isPySpace c then
      if acc.isEmpty then splitWsAux cs [] else acc.reverse :: splitWsAux cs []
    else splitWsAux cs (c :: acc)

/-- Python `str.split()` with no argument. -/
def pySplitWs (l : List Char) : List (List Char) := splitWsAux l []

/-- Python `"_".join(words)`. -/
def joinUnderscore : List (List Char) → List Char
  | [] => []
  | [w] => w
  | w :: ws => w ++ '_' :: joinUnderscore ws

/-- `werkzeug.utils.secure_filename` (POSIX model, see section header). -/
def secure_filename (filename : String) : String :=
  let ascii := filename.data.filter (fun c => c.toNat < 128)
  let nosep := ascii.map (fun c => if c = '/' then ' ' else c)
  let joined := joinUnderscore (pySplitWs nosep)
  let kept := joined.filter keepChar
  ⟨stripChars isDotUnderscore kept⟩

/-! ### Data model and configuration (`app.py` lines 18-73) -/

/-- `ALLOWED_EXT` (`app.py` line 21). -/
def ALLOWED_EXT : List String :=
  ["png", "jpg", "jpeg", "gif", "pdf", "mp3", "wav", "mp4", "txt"]

/-- The characters after the last `.` of a filename:
Python `filename.rsplit(".", 1)[1]` when a dot is present. -/
def afterLastDot (l : List Char) : List Char :=
  (l.reverse.takeWhile (fun c => c != '.')).reverse

/-- `allowed_file` (`app.py` lines 72-73):
`"." in filename and filename.rsplit(".", 1)[1].lower() in ALLOWED_EXT`. -/
def allowed_file (filename : String) : Bool :=
  filename.data.contains '.' && ALLOWED_EXT.contains (pyLower ⟨afterLastDot filename.data⟩)

/-- One row of the sqlite `items` table (`app.py` lines 46-55). -/
structure Item where
  id : Nat
  filename : String
  original_name : String
  mime : String
  title : String
  description : String
  tags : String
  uploaded_at : String
deriving DecidableEq, Repr

/-- The uploaded multipart file part: `request.files["file"]` when
present.  `mimetype` is `none` when the client sent no content type. -/
structure UploadedFile where
  filename : String
  content : List Nat
  mimetype : Option String
deriving DecidableEq, Repr

/-- The optional form fields of the upload request; `none` models an
absent field (Python `request.form.get` returning `None`). -/
structure FormData where
  title : Option String
  description : Option String
  tags : Option String
deriving DecidableEq, Repr

/-- Server state: the `items` table (newest row first), the next
AUTOINCREMENT id, and the uploads directory as an association list from
stored file name to payload bytes (newest write first, so lookup of the
first match models overwriting). -/
structure ServerState where
  rows : List Item
  nextId : Nat
  blobs : List (String × List Nat)
deriving DecidableEq, Repr

/-- Look up a blob by stored name (first match). -/
def lookupBlob (blobs : List (String × List Nat)) (name : String) : Option (List Nat) :=
  (blobs.find? (fun p => p.1 == name)).map Prod.snd

/-- Delete the file `name` from the uploads directory (`os.remove`). -/
def removeBlob (blobs : List (String × List Nat)) (name : String) : List (String × List Nat) :=
  blobs.filter (fun p => !(p.1 == name))

/-- Result of the upload handler.  `ioError` models an exception escaping
from `f.save` (a failed blob write). -/
inductive UploadResult where
  | badRequest (error : String)
  | created (id : Nat)
  | ioError
deriving DecidableEq, Repr

/-- HTTP status of an upload response (`app.py` lines 232-258; an
uncaught exception is a 500). -/
def UploadResult.statusCode : UploadResult → Nat
  | .badRequest _ => 400
  | .created _ => 201
  | .ioError => 500

/-- Result of the delete handler. -/
inductive DeleteResult where
  | success
  | notFound
deriving DecidableEq, Repr

/-! ### Handlers (`app.py` lines 229-314) -/

/-- The row inserted by a successful upload (`app.py` lines 239-255):
`ts` is the `strftime("%Y%m%d%H%M%S%f")` timestamp of line 240 and `ua`
the `isoformat()` timestamp of line 254. -/
def newItem (st : ServerState) (f : UploadedFile) (form : FormData) (ts ua : String) : Item :=
  { id := st.nextId
    filename := ts ++ "_" ++ secure_filename f.filename
    original_name := secure_filename f.filename
    mime := f.mimetype.getD ""
    title := pyStrip (form.title.getD "")
    description := pyStrip (form.description.getD "")
    tags := pyStrip (form.tags.getD "")
    uploaded_at := ua }

/-- `upload` (`app.py` lines 229-258).  `file` is `none` when the request
has no `file` part; `blobOk` is the outcome of `f.save` (line 243), which
runs before the row is inserted. -/
def upload (st : ServerState) (file : Option UploadedFile) (form : FormData)
    (ts ua : String) (blobOk : Bool) : UploadResult × ServerState :=
  match file with
  | none => (.badRequest "No file part", st)
  | some f =>
    if f.filename = "" then (.badRequest "No selected file", st)
    else if allowed_file f.filename = false then
      (.badRequest "File type not allowed. Allowed: gif, jpeg, jpg, mp3, mp4, pdf, png, txt, wav", st)
    else if blobOk = false then (.ioError, st)
    else
      let stored_name := ts ++ "_" ++ secure_filename f.filename
      let row := newItem st f form ts ua
      (.created st.nextId,
        { rows := row :: st.rows
          nextId := st.nextId + 1
          blobs := (stored_name, f.content) :: st.blobs })

/-- The observable states during `upload`, in order: initial state, state
after the blob write (line 243), state after the row insert and commit
(lines 252-256).  On a validation failure or a failed blob write the
state is unchanged and no intermediate state is visible. -/
def uploadStates (st : ServerState) (file : Option UploadedFile) (form : FormData)
    (ts ua : String) (blobOk : Bool) : List ServerState :=
  match file with
  | none => [st]
  | some f =>
    if f.filename = "" then [st]
    else if allowed_file f.filename = false then [st]
    else if blobOk = false then [st]
    else
      let stored_name := ts ++ "_" ++ secure_filename f.filename
      let row := newItem st f form ts ua
      let stBlob := { st with blobs := (stored_name, f.content) :: st.blobs }
      [st, stBlob, { stBlob with rows := row :: stBlob.rows, nextId := st.nextId + 1 }]

/-- `get_item` (`app.py` lines 277-285): `none` models the 404 response. -/
def get_item (st : ServerState) (item_id : Nat) : Option Item :=
  st.rows.find? (fun r => r.id == item_id)

/-- `download` (`app.py` lines 287-297): returns the attachment
`download_name` and the payload bytes, or `none` for a 404 (row missing,
or `send_from_directory` not finding the blob). -/
def download (st : ServerState) (item_id : Nat) : Option (String × List Nat) :=
  match st.rows.find? (fun r => r.id == item_id) with
  | none => none
  | some row =>
    let original := if row.original_name = "" then row.filename else row.original_name
    match lookupBlob st.blobs row.filename with
    | none => none
    | some bytes => some (original, bytes)

/-- `delete_item` (`app.py` lines 299-314).  `removeOk` is the outcome of
`os.remove` (line 309); its failure is swallowed by the bare `except`. -/
def delete_item (st : ServerState) (item_id : Nat) (removeOk : Bool) :
    DeleteResult × ServerState :=
  match st.rows.find? (fun r => r.id == item_id) with
  | none => (.notFound, st)
  | some row =>
    let st1 := if removeOk then { st with blobs := removeBlob st.blobs row.filename } else st
    (.success, { st1 with rows := st1.rows.filter (fun r => !(r.id == item_id)) })

/-- The observable states during `delete_item`, in order: initial state,
state after `os.remove` (line 309), state after the row delete and commit
(lines 312-313). -/
def deleteStates (st : ServerState) (item_id : Nat) (removeOk : Bool) : List ServerState :=
  match st.rows.find? (fun r => r.id == item_id) with
  | none => [st]
  | some row =>
    let st1 := if removeOk then { st with blobs := removeBlob st.blobs row.filename } else st
    [st, st1, { st1 with rows := st1.rows.filter (fun r => !(r.id == item_id)) }]

/-! ### Listing and search (`app.py` lines 260-275) -/

/-- SQLite `LIKE` pattern matching: `%` matches any sequence, `_` any
single character, and other characters match with ASCII case folding
(both operands here are already lower-cased by the handler). -/
def charLikeEq (c d : Char) : Bool := pyLowerChar c == pyLowerChar d

/-- SQLite `LIKE` (no ESCAPE clause), on the character lists of the
pattern and the subject. -/
def likeMatch : List Char → List Char → Bool
  | [], s => s.isEmpty
  | c :: p, s =>
    if c = '%' then s.tails.any (fun t => likeMatch p t)
    else
      match s with
      | [] => false
      | d :: s2 => (c == '_' || charLikeEq c d) && likeMatch p s2

/-- `lower(field) LIKE '%' || q || '%'` for one column, as in the SQL of
`app.py` line 268; `q` is the already stripped-and-lowered query. -/
def fieldMatches (q field : String) : Bool :=
  likeMatch ('%' :: (q.data ++ ['%'])) (pyLower field).data

/-- The WHERE clause of `app.py` lines 267-270. -/
def rowMatches (q : String) (r : Item) : Bool :=
  fieldMatches q r.title || fieldMatches q r.description || fieldMatches q r.tags

/-- Codepoint-wise lexicographic comparison of character lists; on the
stored timestamp strings this is SQLite's BINARY collation order for
TEXT values. -/
def charListLe : List Char → List Char → Bool
  | [], _ => true
  | _ :: _, [] => false
  | c :: cs, d :: ds =>
    c.toNat < d.toNat || (c.toNat = d.toNat && charListLe cs ds)

/-- String comparison under SQLite's BINARY collation. -/
def strLe (a b : String) : Bool := charListLe a.data b.data

/-- `ORDER BY uploaded_at DESC`: later (lexicographically larger)
timestamp strings first. -/
def uploadedDesc (a b : Item) : Prop := strLe b.uploaded_at a.uploaded_at = true

instance : DecidableRel uploadedDesc := fun a b =>
  inferInstanceAs (Decidable (strLe b.uploaded_at a.uploaded_at = true))

theorem charListLe_cons (c d : Char) (cs ds : List Char) :
    charListLe (c :: cs) (d :: ds) =
      (decide (c.toNat < d.toNat) || (decide (c.toNat = d.toNat) && charListLe cs ds)) := rfl

theorem charListLe_total : ∀ l1 l2 : List Char,
    charListLe l1 l2 = true ∨ charListLe l2 l1 = true := by
  intro l1
  induction l1 with
  | nil => intro l2; exact Or.inl rfl
  | cons c cs ih =>
    intro l2
    cases l2 with
    | nil => exact Or.inr rfl
    | cons d ds =>
      rw [charListLe_cons, charListLe_cons]
      simp only [Bool.or_eq_true, Bool.and_eq_true, decide_eq_true_eq]
      rcases Nat.lt_trichotomy c.toNat d.toNat with h | h | h
      · exact Or.inl (Or.inl h)
      · rcases ih ds with h2 | h2
        · exact Or.inl (Or.inr ⟨h, h2⟩)
        · exact Or.inr (Or.inr ⟨h.symm, h2⟩)
      · exact Or.inr (Or.inl h)

theorem charListLe_trans : ∀ l1 l2 l3 : List Char,
    charListLe l1 l2 = true → charListLe l2 l3 = true → charListLe l1 l3 = true := by
  intro l1
  induction l1 with
  | nil => intro l2 l3 _ _; rfl
  | cons c cs ih =>
    intro l2 l3 h1 h2
    cases l2 with
    | nil => cases h1
    | cons d ds =>
      cases l3 with
      | nil => cases h2
      | cons e es =>
        rw [charListLe_cons] at h1 h2 ⊢
        simp only [Bool.or_eq_true, Bool.and_eq_true, decide_eq_true_eq] at h1 h2 ⊢
        rcases h1 with h1 | ⟨h1e, h1le⟩
        · rcases h2 with h2 | ⟨h2e, h2le⟩
          · exact Or.inl (by omega)
          · exact Or.inl (by omega)
        · rcases h2 with h2 | ⟨h2e, h2le⟩
          · exact Or.inl (by omega)
          · exact Or.inr ⟨by omega, ih ds es h1le h2le⟩

instance : IsTotal Item uploadedDesc :=
  ⟨fun a b => charListLe_total b.uploaded_at.data a.uploaded_at.data⟩

instance : IsTrans Item uploadedDesc :=
  ⟨fun a b c h1 h2 => charListLe_trans c.uploaded_at.data b.uploaded_at.data a.uploaded_at.data h2 h1⟩

/-- The query normalization of `app.py` line 262:
`(request.args.get("q") or "").strip().lower()`. -/
def processedQuery (qarg : Option String) : String := pyLower (pyStrip (qarg.getD ""))

/-- `list_items` (`app.py` lines 260-275).  `qarg` is
`request.args.get("q")`.  The SQL result order is modelled by insertion
sort under `uploadedDesc`. -/
def list_items (st : ServerState) (qarg : Option String) : List Item :=
  let q := processedQuery qarg
  if q = "" then List.insertionSort uploadedDesc st.rows
  else List.insertionSort uploadedDesc (st.rows.filter (rowMatches q))

/-! ### Derived predicates used by the claims -/

/-- `q` occurs as a substring of the lower-cased `field` (`q` itself is
already lower-cased by the handler): the spec's "case-insensitive
substring" reading of a match. -/
def qSubstr (q field : String) : Bool := decide (q.data <:+: (pyLower field).data)

/-- The spec's search predicate: `q` is a case-insensitive substring of
the title, the description or the tags. -/
def substrRow (q : String) (r : Item) : Bool :=
  qSubstr q r.title || qSubstr q r.description || qSubstr q r.tags

/-- The query contains no SQL LIKE wildcard. -/
def noWild (l : List Char) : Bool := l.all (fun c => !(c == '%') && !(c == '_'))

/-- Every row's stored name has a blob in the uploads directory: no
dangling rows. -/
def danglingFree (st : ServerState) : Bool :=
  st.rows.all (fun r => (lookupBlob st.blobs r.filename).isSome)

/-! ### Character-level facts -/

theorem char_toNat_ofNat {n : Nat} (h : n < 55296) : (Char.ofNat n).toNat = n := by
  have hv : n.isValidChar := Or.inl h
  simp [Char.ofNat, dif_pos hv, Char.ofNatAux, Char.toNat, UInt32.toNat, BitVec.toNat_ofNatLt]

theorem isAsciiUpper_iff {c : Char} :
    isAsciiUpper c = true ↔ 65 ≤ c.toNat ∧ c.toNat ≤ 90 := by
  simp [isAsciiUpper]

theorem isAsciiAlnum_iff {c : Char} :
    isAsciiAlnum c = true ↔
      (65 ≤ c.toNat ∧ c.toNat ≤ 90) ∨ (97 ≤ c.toNat ∧ c.toNat ≤ 122) ∨
        (48 ≤ c.toNat ∧ c.toNat ≤ 57) := by
  simp [isAsciiAlnum, isAsciiUpper, isAsciiLowercase, isAsciiDigit]
  exact or_assoc

theorem pyLowerChar_eq_of_not_upper {c : Char} (h : ¬ isAsciiUpper c = true) :
    pyLowerChar c = c := by
  rw [pyLowerChar, if_neg h]

theorem pyLowerChar_toNat_of_upper {c : Char} (h : isAsciiUpper c = true) :
    (pyLowerChar c).toNat = c.toNat + 32 := by
  rw [pyLowerChar, if_pos h]
  exact char_toNat_ofNat (by rcases isAsciiUpper_iff.mp h with ⟨h1, h2⟩; omega)

theorem pyLowerChar_idem (c : Char) : pyLowerChar (pyLowerChar c) = pyLowerChar c := by
  by_cases h : isAsciiUpper c = true
  · have ht := pyLowerChar_toNat_of_upper h
    apply pyLowerChar_eq_of_not_upper
    rw [isAsciiUpper_iff, ht]
    rcases isAsciiUpper_iff.mp h with ⟨h1, h2⟩
    omega
  · rw [pyLowerChar_eq_of_not_upper h, pyLowerChar_eq_of_not_upper h]

theorem map_pyLowerChar_idem (l : List Char) :
    (l.map pyLowerChar).map pyLowerChar = l.map pyLowerChar := by
  induction l with
  | nil => rfl
  | cons c cs ih => simp [pyLowerChar_idem, ih]

theorem isAsciiAlnum_of_lower {c : Char} (h : isAsciiAlnum (pyLowerChar c) = true) :
    isAsciiAlnum c = true := by
  by_cases hu : isAsciiUpper c = true
  · simp [isAsciiAlnum, hu]
  · rwa [pyLowerChar_eq_of_not_upper hu] at h

theorem toNat_lt_128_of_alnum {c : Char} (h : isAsciiAlnum c = true) : c.toNat < 128 := by
  rcases isAsciiAlnum_iff.mp h with h | h | h <;> omega

theorem isPySpace_eq_false_of_alnum {c : Char} (h : isAsciiAlnum c = true) :
    isPySpace c = false := by
  rcases isAsciiAlnum_iff.mp h with h | h | h <;> (simp [isPySpace]; omega)

theorem slash_map_eq_of_alnum {c : Char} (h : isAsciiAlnum c = true) :
    (if c = '/' then ' ' else c) = c := by
  rw [if_neg]
  intro he
  rw [he] at h
  exact absurd h (by decide)

theorem keepChar_of_alnum {c : Char} (h : isAsciiAlnum c = true) : keepChar c = true := by
  simp [keepChar, h]

theorem isDotUnderscore_eq_false_of_alnum {c : Char} (h : isAsciiAlnum c = true) :
    isDotUnderscore c = false := by
  have h1 : ¬ c = '.' := fun he => absurd (he ▸ h) (by decide)
  have h2 : ¬ c = '_' := fun he => absurd (he ▸ h) (by decide)
  simp [isDotUnderscore, h1, h2]

/-! ### Sanitized filenames of allowed files are nonempty -/

theorem mem_dropWhile_of_neg {p : Char → Bool} {c : Char} (hc : p c = false) :
    ∀ {l : List Char}, c ∈ l → c ∈ l.dropWhile p := by
  intro l
  induction l with
  | nil => intro h; exact absurd h (List.not_mem_nil c)
  | cons d ds ih =>
    intro h
    rw [List.dropWhile_cons]
    by_cases hd : p d = true
    · rw [if_pos hd]
      rcases List.mem_cons.mp h with he | hm
      · subst he; rw [hc] at hd; cases hd
      · exact ih hm
    · rw [if_neg hd]; exact h

theorem stripChars_ne_nil {p : Char → Bool} {c : Char} {l : List Char}
    (hc : p c = false) (hm : c ∈ l) : stripChars p l ≠ [] := by
  have h1 : c ∈ l.dropWhile p := mem_dropWhile_of_neg hc hm
  have h2 : c ∈ (l.dropWhile p).reverse := List.mem_reverse.mpr h1
  have h3 : c ∈ (l.dropWhile p).reverse.dropWhile p := mem_dropWhile_of_neg hc h2
  have h4 : c ∈ stripChars p l := by rw [stripChars]; exact List.mem_reverse.mpr h3
  exact List.ne_nil_of_mem h4

theorem mem_joinUnderscore_tail {c : Char} {w : List Char} {ws : List (List Char)}
    (h : c ∈ joinUnderscore ws) : c ∈ joinUnderscore (w :: ws) := by
  cases ws with
  | nil => cases h
  | cons w1 ws2 =>
    exact List.mem_append.mpr (Or.inr (List.mem_cons.mpr (Or.inr h)))

theorem mem_joinUnderscore_head {c : Char} {w : List Char} {ws : List (List Char)}
    (h : c ∈ w) : c ∈ joinUnderscore (w :: ws) := by
  cases ws with
  | nil => exact h
  | cons w1 ws2 =>
    exact List.mem_append.mpr (Or.inl h)

theorem mem_splitWsAux {c : Char} (hc : isPySpace c = false) :
    ∀ (l acc : List Char), (c ∈ l ∨ c ∈ acc) → c ∈ joinUnderscore (splitWsAux l acc) := by
  intro l
  induction l with
  | nil =>
    intro acc h
    rcases h with h | h
    · cases h
    · rw [splitWsAux, if_neg (by intro he; rw [List.isEmpty_iff] at he; subst he; cases h)]
      exact mem_joinUnderscore_head (List.mem_reverse.mpr h)
  | cons d ds ih =>
    intro acc h
    rw [splitWsAux]
    by_cases hsp : isPySpace d = true
    · rw [if_pos hsp]
      by_cases hacc : acc.isEmpty = true
      · rw [if_pos hacc]
        rcases h with h | h
        · rcases List.mem_cons.mp h with he | hm
          · subst he; rw [hc] at hsp; cases hsp
          · exact ih [] (Or.inl hm)
        · rw [List.isEmpty_iff] at hacc; subst hacc; cases h
      · rw [if_neg hacc]
        rcases h with h | h
        · rcases List.mem_cons.mp h with he | hm
          · subst he; rw [hc] at hsp; cases hsp
          · exact mem_joinUnderscore_tail (ih [] (Or.inl hm))
        · exact mem_joinUnderscore_head (List.mem_reverse.mpr h)
    · rw [if_neg hsp]
      apply ih (d :: acc)
      rcases h with h | h
      · rcases List.mem_cons.mp h with he | hm
        · exact Or.inr (by rw [he]; exact List.mem_cons_self d acc)
        · exact Or.inl hm
      · exact Or.inr (List.mem_cons.mpr (Or.inr h))

theorem map_eq_cons_exists {l : List Char} {a : Char} {t : List Char}
    (h : l.map pyLowerChar = a :: t) : ∃ c ∈ l, pyLowerChar c = a := by
  cases l with
  | nil => cases h
  | cons c cs =>
    rw [List.map_cons] at h
    exact ⟨c, List.mem_cons_self c cs, (List.cons.injEq _ _ _ _ ▸ h).1⟩

theorem exists_alnum_of_allowed {fn : String} (h : allowed_file fn = true) :
    ∃ c ∈ fn.data, isAsciiAlnum c = true := by
  rw [allowed_file, Bool.and_eq_true] at h
  obtain ⟨-, h2⟩ := h
  have hsub : ∀ c ∈ afterLastDot fn.data, c ∈ fn.data := by
    intro c hc
    rw [afterLastDot] at hc
    exact List.mem_reverse.mp ((List.takeWhile_sublist _).subset (List.mem_reverse.mp hc))
  simp only [ALLOWED_EXT, List.contains_cons, List.contains_nil, Bool.or_false,
    Bool.or_eq_true, beq_iff_eq] at h2
  have step : ∀ (w : String), pyLower ⟨afterLastDot fn.data⟩ = w →
      isAsciiAlnum (w.data.headD 'a') = true → w.data ≠ [] →
      ∃ c ∈ fn.data, isAsciiAlnum c = true := by
    intro w hw hal hne
    have hd : (afterLastDot fn.data).map pyLowerChar = w.data := congrArg String.data hw
    cases hwd : w.data with
    | nil => exact absurd hwd hne
    | cons a t =>
      rw [hwd] at hd
      obtain ⟨c, hcm, hcl⟩ := map_eq_cons_exists hd
      refine ⟨c, hsub c hcm, isAsciiAlnum_of_lower ?_⟩
      rw [hcl]
      rw [hwd] at hal
      exact hal
  rcases h2 with h2 | h2 | h2 | h2 | h2 | h2 | h2 | h2 | h2 <;>
    exact step _ h2 (by decide) (by decide)

theorem secure_filename_ne_empty {fn : String} (h : allowed_file fn = true) :
    secure_filename fn ≠ "" := by
  obtain ⟨c, hcm, hca⟩ := exists_alnum_of_allowed h
  have h1 : c ∈ fn.data.filter (fun c => c.toNat < 128) :=
    List.mem_filter.mpr ⟨hcm, by simp [toNat_lt_128_of_alnum hca]⟩
  have h2 : c ∈ (fn.data.filter (fun c => c.toNat < 128)).map
      (fun c => if c = '/' then ' ' else c) := by
    have hmm := List.mem_map_of_mem (fun c => if c = '/' then ' ' else c) h1
    have hbeta : (fun c => if c = '/' then ' ' else c) c = c := slash_map_eq_of_alnum hca
    rwa [hbeta] at hmm
  have h3 := mem_splitWsAux (isPySpace_eq_false_of_alnum hca) _ [] (Or.inl h2)
  have h4 : c ∈ (joinUnderscore (pySplitWs ((fn.data.filter (fun c => c.toNat < 128)).map
      (fun c => if c = '/' then ' ' else c)))).filter keepChar :=
    List.mem_filter.mpr ⟨h3, keepChar_of_alnum hca⟩
  have h5 := stripChars_ne_nil (isDotUnderscore_eq_false_of_alnum hca) h4
  intro he
  exact h5 (congrArg String.data he)

/-! ### SQLite LIKE versus substring containment -/

theorem likeMatch_cons (c : Char) (p s : List Char) :
    likeMatch (c :: p) s =
      if c = '%' then s.tails.any (fun t => likeMatch p t)
      else
        match s with
        | [] => false
        | d :: s2 => (c == '_' || charLikeEq c d) && likeMatch p s2 := rfl

theorem likeMatch_pct_nil (s : List Char) : likeMatch ['%'] s = true := by
  rw [likeMatch.eq_def]
  simp only [reduceIte, List.any_eq_true]
  exact ⟨[], (List.mem_tails _ _).mpr List.nil_suffix, rfl⟩

theorem likeMatch_cons_pct (p s : List Char) :
    likeMatch ('%' :: p) s = s.tails.any (fun t => likeMatch p t) := by
  rw [likeMatch.eq_def]
  simp

theorem likeMatch_append_pct :
    ∀ (p : List Char), noWild p = true → ∀ s : List Char,
      (likeMatch (p ++ ['%']) s = true ↔ p.map pyLowerChar <+: s.map pyLowerChar) := by
  intro p
  induction p with
  | nil =>
    intro _ s
    simpa using likeMatch_pct_nil s
  | cons c p2 ih =>
    intro hp s
    simp only [noWild, List.all_cons, Bool.and_eq_true, Bool.not_eq_true',
      beq_eq_false_iff_ne, ne_eq] at hp
    obtain ⟨⟨hc1, hc2⟩, hp2⟩ := hp
    have hp2' : noWild p2 = true := by rw [noWild]; exact hp2
    rw [List.cons_append, likeMatch_cons, if_neg hc1]
    cases s with
    | nil =>
      simp
    | cons d s2 =>
      show ((c == '_' || charLikeEq c d) && likeMatch (p2 ++ ['%']) s2) = true ↔
        List.map pyLowerChar (c :: p2) <+: List.map pyLowerChar (d :: s2)
      have hbe : (c == '_') = false := by simp [hc2]
      rw [hbe, Bool.false_or, Bool.and_eq_true, charLikeEq, beq_iff_eq, ih hp2' s2,
        List.map_cons, List.map_cons, List.cons_prefix_cons]

theorem exists_suffix_map_eq {u l : List Char} (h : u <:+ l.map pyLowerChar) :
    ∃ t, t <:+ l ∧ t.map pyLowerChar = u := by
  obtain ⟨k, hk⟩ := h
  refine ⟨l.drop k.length, List.drop_suffix _ _, ?_⟩
  rw [List.map_drop, ← hk, List.drop_left]

theorem likeMatch_full_iff {q : List Char} (hq : noWild q = true) (s : List Char) :
    likeMatch ('%' :: (q ++ ['%'])) s = true ↔
      q.map pyLowerChar <:+: s.map pyLowerChar := by
  rw [likeMatch_cons_pct, List.any_eq_true]
  constructor
  · rintro ⟨t, htm, hlm⟩
    rw [List.mem_tails] at htm
    rw [likeMatch_append_pct q hq t] at hlm
    rw [List.infix_iff_prefix_suffix]
    exact ⟨t.map pyLowerChar, hlm, List.IsSuffix.map pyLowerChar htm⟩
  · intro hin
    rw [List.infix_iff_prefix_suffix] at hin
    obtain ⟨u, hu1, hu2⟩ := hin
    obtain ⟨t, ht1, ht2⟩ := exists_suffix_map_eq hu2
    refine ⟨t, (List.mem_tails _ _).mpr ht1, ?_⟩
    rw [likeMatch_append_pct q hq t, ht2]
    exact hu1

theorem fieldMatches_eq_substr {x f : String} (hq : noWild (pyLower x).data = true) :
    fieldMatches (pyLower x) f = qSubstr (pyLower x) f := by
  rw [Bool.eq_iff_iff, fieldMatches, qSubstr]
  rw [decide_eq_true_eq, likeMatch_full_iff hq]
  have h1 : (pyLower x).data.map pyLowerChar = (pyLower x).data := map_pyLowerChar_idem x.data
  have h2 : (pyLower f).data.map pyLowerChar = (pyLower f).data := map_pyLowerChar_idem f.data
  rw [h1, h2]

theorem rowMatches_eq_substrRow {x : String} (r : Item) (hq : noWild (pyLower x).data = true) :
    rowMatches (pyLower x) r = substrRow (pyLower x) r := by
  rw [rowMatches, substrRow, fieldMatches_eq_substr hq, fieldMatches_eq_substr hq,
    fieldMatches_eq_substr hq]

/-! ### Stripping whitespace-only queries -/

theorem pyStrip_eq_empty {q : String} (h : q.data.all isPySpace = true) : pyStrip q = "" := by
  have h1 : q.data.dropWhile isPySpace = [] := by
    rw [List.dropWhile_eq_nil_iff]
    exact fun x hx => List.all_eq_true.mp h x hx
  apply String.ext
  show stripChars isPySpace q.data = "".data
  rw [stripChars, h1]
  rfl

/-! ### Evaluation helpers for the handlers -/

theorem upload_success {st : ServerState} {f : UploadedFile} {form : FormData} {ts ua : String}
    (h1 : ¬ f.filename = "") (h2 : allowed_file f.filename = true) :
    upload st (some f) form ts ua true =
      (.created st.nextId,
        { rows := newItem st f form ts ua :: st.rows
          nextId := st.nextId + 1
          blobs := (ts ++ "_" ++ secure_filename f.filename, f.content) :: st.blobs }) := by
  simp [upload, h1, h2]

theorem find?_cons_self (row : Item) (rows : List Item) :
    (row :: rows).find? (fun r => r.id == row.id) = some row := by
  have h : (fun r : Item => r.id == row.id) row = true := beq_self_eq_true row.id
  rw [List.find?_cons_of_pos rows h]

theorem lookupBlob_cons_self (name : String) (bytes : List Nat)
    (bs : List (String × List Nat)) :
    lookupBlob ((name, bytes) :: bs) name = some bytes := by
  have h : (fun p : String × List Nat => p.1 == name) (name, bytes) = true := beq_self_eq_true name
  rw [lookupBlob, List.find?_cons_of_pos bs h]
  rfl

theorem lookupBlob_cons_of_ne {name n : String} (hne : ¬ n = name) (bytes : List Nat)
    (bs : List (String × List Nat)) :
    lookupBlob ((n, bytes) :: bs) name = lookupBlob bs name := by
  have h : ¬ (fun p : String × List Nat => p.1 == name) (n, bytes) = true := by simpa using hne
  rw [lookupBlob, List.find?_cons_of_neg bs h]
  rfl

theorem download_eval {st2 : ServerState} {item_id : Nat} {row : Item}
    (hfind : st2.rows.find? (fun r => r.id == item_id) = some row)
    (horig : ¬ row.original_name = "")
    {bytes : List Nat} (hblob : lookupBlob st2.blobs row.filename = some bytes) :
    download st2 item_id = some (row.original_name, bytes) := by
  rw [download.eq_def, hfind]
  simp only []
  rw [hblob]
  simp only []
  rw [if_neg horig]

/-! ### Claims -/

/-- C4: the claim as frozen states `storedName = <timestamp><sanitized
originalName>` with nothing in between; the code (`app.py` line 241)
inserts an underscore: `f"{timestamp}_{orig}"`.  At a concrete upload the
stored name differs from the separator-free concatenation. -/
theorem C4_counterexample :
    (upload ⟨[], 1, []⟩ (some ⟨"a.txt", [1], some "text/plain"⟩) ⟨none, none, none⟩
        "20240101000000000000" "2024-01-01T00:00:00" true).2.rows.map Item.filename =
      ["20240101000000000000_a.txt"] ∧
    ¬ ("20240101000000000000_a.txt" =
        "20240101000000000000" ++ secure_filename "a.txt") := by
  constructor
  · decide
  · decide

/-- C4 (amended): for every successful create, the `storedName` is the
UTC timestamp, an underscore, then the sanitized original filename:
`<timestamp>_<sanitized originalName>`. -/
theorem C4_storedName {st : ServerState} {f : UploadedFile} {form : FormData} {ts ua : String}
    (h1 : ¬ f.filename = "") (h2 : allowed_file f.filename = true) :
    ∃ st2 : ServerState,
      upload st (some f) form ts ua true = (.created st.nextId, st2) ∧
      ∃ row, st2.rows = row :: st.rows ∧
        row.filename = ts ++ "_" ++ secure_filename f.filename :=
  ⟨_, upload_success h1 h2, newItem st f form ts ua, rfl, rfl⟩

/-- Witness for C4: the amended stored-name law at a concrete upload. -/
theorem C4_storedName_witness :
    ∃ st2 : ServerState,
      upload ⟨[], 1, []⟩ (some ⟨"a.txt", [1], some "text/plain"⟩) ⟨none, none, none⟩
          "20240101000000000000" "2024-01-01T00:00:00" true = (.created 1, st2) ∧
      ∃ row, st2.rows = row :: [] ∧
        row.filename = "20240101000000000000" ++ "_" ++ secure_filename "a.txt" :=
  C4_storedName (by decide) (by decide)

/-- C10: for every successful upload, the stored `title`, `description`
and `tags` are the submitted values stripped of surrounding whitespace
(empty when the field is absent), and `mime` is the client mimetype or
empty when absent (`app.py` lines 245-248). -/
theorem C10_row_fields {st : ServerState} {f : UploadedFile} {form : FormData} {ts ua : String}
    (h1 : ¬ f.filename = "") (h2 : allowed_file f.filename = true) :
    ∃ st2 : ServerState,
      upload st (some f) form ts ua true = (.created st.nextId, st2) ∧
      ∃ row, st2.rows = row :: st.rows ∧
        row.title = pyStrip (form.title.getD "") ∧
        row.description = pyStrip (form.description.getD "") ∧
        row.tags = pyStrip (form.tags.getD "") ∧
        row.mime = f.mimetype.getD "" :=
  ⟨_, upload_success h1 h2, newItem st f form ts ua, rfl, rfl, rfl, rfl, rfl⟩

/-- Witness for C10 at a concrete upload with padded fields and an
absent description. -/
theorem C10_row_fields_witness :
    ∃ st2 : ServerState,
      upload ⟨[], 1, []⟩ (some ⟨"a.txt", [1], none⟩) ⟨some "  Palm leaf 1 ", none, some " a, b "⟩
          "t" "u" true = (.created 1, st2) ∧
      ∃ row, st2.rows = row :: [] ∧
        row.title = pyStrip "  Palm leaf 1 " ∧
        row.description = pyStrip "" ∧
        row.tags = pyStrip " a, b " ∧
        row.mime = "" :=
  C10_row_fields (by decide) (by decide)

/-- C6: an upload with a missing file part, an empty filename, or a
filename failing `allowed_file` gets a 400 response and leaves the state
(rows and blobs) unchanged (`app.py` lines 231-237). -/
theorem C6_upload_validation (st : ServerState) (form : FormData) (ts ua : String)
    (blobOk : Bool) :
    ((upload st none form ts ua blobOk).1.statusCode = 400 ∧
      (upload st none form ts ua blobOk).2 = st) ∧
    (∀ f : UploadedFile, f.filename = "" →
      (upload st (some f) form ts ua blobOk).1.statusCode = 400 ∧
      (upload st (some f) form ts ua blobOk).2 = st) ∧
    (∀ f : UploadedFile, allowed_file f.filename = false →
      (upload st (some f) form ts ua blobOk).1.statusCode = 400 ∧
      (upload st (some f) form ts ua blobOk).2 = st) := by
  refine ⟨⟨rfl, rfl⟩, ?_, ?_⟩
  · intro f hf
    simp [upload, hf, UploadResult.statusCode]
  · intro f hf
    by_cases he : f.filename = ""
    · simp [upload, he, UploadResult.statusCode]
    · simp [upload, he, hf, UploadResult.statusCode]

/-- Witness for C6: uploading `malware.exe` is a 400 and changes nothing. -/
theorem C6_upload_validation_witness :
    (upload ⟨[], 1, []⟩ (some ⟨"malware.exe", [0], none⟩) ⟨none, none, none⟩ "t" "u"
        true).1.statusCode = 400 ∧
    (upload ⟨[], 1, []⟩ (some ⟨"malware.exe", [0], none⟩) ⟨none, none, none⟩ "t" "u"
        true).2 = ⟨[], 1, []⟩ :=
  (C6_upload_validation ⟨[], 1, []⟩ ⟨none, none, none⟩ "t" "u" true).2.2
    ⟨"malware.exe", [0], none⟩ (by decide)

theorem lookupBlob_removeBlob (bs : List (String × List Nat)) (name : String) :
    lookupBlob (removeBlob bs name) name = none := by
  induction bs with
  | nil => rfl
  | cons p rest ih =>
    rw [removeBlob, List.filter_cons]
    cases hp : (p.1 == name) with
    | true =>
      simp only [hp, Bool.not_true, if_false]
      exact ih
    | false =>
      simp only [hp, Bool.not_false, if_true]
      have h : ¬ (fun q : String × List Nat => q.1 == name) p = true := by simp [hp]
      rw [lookupBlob, List.find?_cons_of_neg (List.filter (fun q => !(q.1 == name)) rest) h]
      exact ih

theorem delete_item_found {st : ServerState} {item_id : Nat} {removeOk : Bool} {row : Item}
    (hfind : st.rows.find? (fun r => r.id == item_id) = some row) :
    delete_item st item_id removeOk =
      (.success,
        { (if removeOk then { st with blobs := removeBlob st.blobs row.filename } else st) with
          rows := st.rows.filter (fun r => !(r.id == item_id)) }) := by
  rw [delete_item.eq_def, hfind]
  cases removeOk <;> rfl

/-- C7: deleting an existing id always reports success and removes the
row, whether or not the blob removal succeeded; deleting a missing id
(in particular, deleting the same id twice) reports not-found and leaves
the state unchanged (`app.py` lines 299-314). -/
theorem C7_delete (st : ServerState) (item_id : Nat) (removeOk removeOk2 : Bool) :
    (∀ row, st.rows.find? (fun r => r.id == item_id) = some row →
      (delete_item st item_id removeOk).1 = .success ∧
      (∀ r ∈ (delete_item st item_id removeOk).2.rows, ¬ r.id = item_id) ∧
      (delete_item (delete_item st item_id removeOk).2 item_id removeOk2).1 = .notFound) ∧
    (st.rows.find? (fun r => r.id == item_id) = none →
      (delete_item st item_id removeOk).1 = .notFound ∧
      (delete_item st item_id removeOk).2 = st) := by
  constructor
  · intro row hfind
    have hres := @delete_item_found st item_id removeOk row hfind
    have hrows : (delete_item st item_id removeOk).2.rows =
        st.rows.filter (fun r => !(r.id == item_id)) := by rw [hres]
    have hnone : (delete_item st item_id removeOk).2.rows.find?
        (fun r => r.id == item_id) = none := by
      rw [hrows, List.find?_eq_none]
      intro r hr
      have := (List.mem_filter.mp hr).2
      simpa using this
    refine ⟨by rw [hres], ?_, ?_⟩
    · intro r hr
      rw [hrows] at hr
      have := (List.mem_filter.mp hr).2
      simpa using this
    · rw [delete_item.eq_def, hnone]
  · intro hfind
    rw [delete_item.eq_def, hfind]
    exact ⟨rfl, rfl⟩

/-- Witness for C7 at a concrete one-item state, with the blob removal
failing (`removeOk = false`): the row still goes away and the second
delete is a not-found. -/
theorem C7_delete_witness :
    (delete_item ⟨[⟨1, "t_a.txt", "a.txt", "", "", "", "", "2024"⟩], 2, [("t_a.txt", [0])]⟩
        1 false).1 = .success ∧
    (∀ r ∈ (delete_item ⟨[⟨1, "t_a.txt", "a.txt", "", "", "", "", "2024"⟩], 2,
        [("t_a.txt", [0])]⟩ 1 false).2.rows, ¬ r.id = 1) ∧
    (delete_item (delete_item ⟨[⟨1, "t_a.txt", "a.txt", "", "", "", "", "2024"⟩], 2,
        [("t_a.txt", [0])]⟩ 1 false).2 1 true).1 = .notFound :=
  (C7_delete ⟨[⟨1, "t_a.txt", "a.txt", "", "", "", "", "2024"⟩], 2, [("t_a.txt", [0])]⟩
      1 false true).1 ⟨1, "t_a.txt", "a.txt", "", "", "", "", "2024"⟩ (by decide)

/-- C2: the claim as frozen says the row is deleted before (or together
with) the blob, and that no state during a delete may show a row whose
`storedName` lacks its blob.  The code does the opposite (`app.py` lines
308-312: `os.remove` runs before the SQL DELETE), so the state between
the two sub-steps of a delete of a concrete one-item store has a
dangling row. -/
theorem C2_counterexample :
    ¬ (∀ s ∈ deleteStates ⟨[⟨1, "t_a.txt", "a.txt", "", "", "", "", "2024"⟩], 2,
        [("t_a.txt", [0])]⟩ 1 true, danglingFree s = true) := by
  decide

/-- C2 (amended): during a delete of an existing item the blob is
removed first: the intermediate state still holds every row while the
blob is already gone (when `os.remove` succeeded), and only the final
state drops the row; so the transient inconsistency is a dangling row,
and a dangling blob only remains if the blob removal failed. -/
theorem C2_delete_order {st : ServerState} {item_id : Nat} {removeOk : Bool} {row : Item}
    (hfind : st.rows.find? (fun r => r.id == item_id) = some row) :
    ∃ mid fin, deleteStates st item_id removeOk = [st, mid, fin] ∧
      mid.rows = st.rows ∧
      (removeOk = true → lookupBlob mid.blobs row.filename = none) ∧
      fin.rows = st.rows.filter (fun r => !(r.id == item_id)) ∧
      fin.blobs = mid.blobs := by
  refine ⟨if removeOk then { st with blobs := removeBlob st.blobs row.filename } else st,
    { (if removeOk then { st with blobs := removeBlob st.blobs row.filename } else st) with
      rows := st.rows.filter (fun r => !(r.id == item_id)) }, ?_, ?_, ?_, rfl, rfl⟩
  · rw [deleteStates.eq_def, hfind]
    cases removeOk <;> rfl
  · cases removeOk <;> rfl
  · intro h
    rw [h, if_pos rfl]
    exact lookupBlob_removeBlob st.blobs row.filename

/-- Witness for C2 (amended) at the same concrete one-item state. -/
theorem C2_delete_order_witness :
    ∃ mid fin, deleteStates ⟨[⟨1, "t_a.txt", "a.txt", "", "", "", "", "2024"⟩], 2,
        [("t_a.txt", [0])]⟩ 1 true =
      [⟨[⟨1, "t_a.txt", "a.txt", "", "", "", "", "2024"⟩], 2, [("t_a.txt", [0])]⟩, mid, fin] ∧
      mid.rows = [⟨1, "t_a.txt", "a.txt", "", "", "", "", "2024"⟩] ∧
      (true = true → lookupBlob mid.blobs "t_a.txt" = none) ∧
      fin.rows = [⟨1, "t_a.txt", "a.txt", "", "", "", "", "2024"⟩].filter
        (fun r => !(r.id == 1)) ∧
      fin.blobs = mid.blobs :=
  @C2_delete_order ⟨[⟨1, "t_a.txt", "a.txt", "", "", "", "", "2024"⟩], 2, [("t_a.txt", [0])]⟩
    1 true ⟨1, "t_a.txt", "a.txt", "", "", "", "", "2024"⟩ (by decide)

theorem lookupBlob_cons_isSome {bs : List (String × List Nat)} {n : String}
    (p : String × List Nat) (h : (lookupBlob bs n).isSome = true) :
    (lookupBlob (p :: bs) n).isSome = true := by
  cases hp : (p.1 == n) with
  | true =>
    have hpt : (fun q : String × List Nat => q.1 == n) p = true := hp
    rw [lookupBlob, List.find?_cons_of_pos bs hpt]
    rfl
  | false =>
    have hpf : ¬ (fun q : String × List Nat => q.1 == n) p = true := by simp [hp]
    rw [lookupBlob, List.find?_cons_of_neg bs hpf]
    exact h

theorem danglingFree_cons_blob {st : ServerState} (p : String × List Nat)
    (h : danglingFree st = true) :
    danglingFree { st with blobs := p :: st.blobs } = true := by
  rw [danglingFree, List.all_eq_true] at h ⊢
  intro r hr
  exact lookupBlob_cons_isSome p (h r hr)

/-- C8: the blob write happens before the row insert; a failed blob
write aborts the create with the state unchanged (no row is committed),
and every state visible during an upload keeps the invariant that each
row's stored name has its blob (`app.py` lines 243-256). -/
theorem C8_blob_before_row (st : ServerState) (file : Option UploadedFile) (form : FormData)
    (ts ua : String) :
    ((upload st file form ts ua false).2 = st ∧
      (∀ i, ¬ (upload st file form ts ua false).1 = .created i)) ∧
    (∀ blobOk, danglingFree st = true →
      ∀ s ∈ uploadStates st file form ts ua blobOk, danglingFree s = true) := by
  constructor
  · cases file with
    | none => exact ⟨rfl, fun i h => by cases h⟩
    | some f =>
      by_cases h1 : f.filename = ""
      · constructor
        · simp [upload, h1]
        · intro i
          simp [upload, h1]
      · by_cases h2 : allowed_file f.filename = false
        · constructor
          · simp [upload, h1, h2]
          · intro i
            simp [upload, h1, h2]
        · constructor
          · simp [upload, h1, h2]
          · intro i
            simp [upload, h1, h2]
  · intro blobOk hdf s hs
    cases file with
    | none =>
      rw [uploadStates] at hs
      rcases List.mem_singleton.mp hs with rfl
      exact hdf
    | some f =>
      by_cases h1 : f.filename = ""
      · rw [uploadStates.eq_def] at hs
        simp only [h1, if_true, if_pos] at hs
        rcases List.mem_singleton.mp hs with rfl
        exact hdf
      · by_cases h2 : allowed_file f.filename = false
        · rw [uploadStates.eq_def] at hs
          simp only [h1, h2, if_false, if_true, reduceIte] at hs
          rcases List.mem_singleton.mp hs with rfl
          exact hdf
        · by_cases h3 : blobOk = false
          · rw [uploadStates.eq_def] at hs
            simp only [h1, h2, h3, if_false, if_true, reduceIte] at hs
            rcases List.mem_singleton.mp hs with rfl
            exact hdf
          · rw [uploadStates.eq_def] at hs
            simp only [h1, h2, h3, if_false, reduceIte] at hs
            rcases List.mem_cons.mp hs with rfl | hs2
            · exact hdf
            · rcases List.mem_cons.mp hs2 with rfl | hs3
              · exact danglingFree_cons_blob _ hdf
              · rcases List.mem_cons.mp hs3 with rfl | hs4
                · rw [danglingFree, List.all_eq_true]
                  intro r hr
                  rcases List.mem_cons.mp hr with rfl | hm
                  · have hfn : (newItem st f form ts ua).filename =
                        ts ++ "_" ++ secure_filename f.filename := rfl
                    show (lookupBlob ((ts ++ "_" ++ secure_filename f.filename, f.content) ::
                        st.blobs) (newItem st f form ts ua).filename).isSome = true
                    rw [hfn, lookupBlob_cons_self]
                    rfl
                  · rw [danglingFree, List.all_eq_true] at hdf
                    exact lookupBlob_cons_isSome _ (hdf r hm)
                · cases hs4

/-- Witness for C8 at a concrete upload whose blob write fails, starting
from a dangling-free one-item state. -/
theorem C8_blob_before_row_witness :
    ((upload ⟨[⟨1, "t_b.txt", "b.txt", "", "", "", "", "2024"⟩], 2, [("t_b.txt", [7])]⟩
        (some ⟨"a.txt", [1], none⟩) ⟨none, none, none⟩ "t" "u" false).2 =
      ⟨[⟨1, "t_b.txt", "b.txt", "", "", "", "", "2024"⟩], 2, [("t_b.txt", [7])]⟩ ∧
      (∀ i, ¬ (upload ⟨[⟨1, "t_b.txt", "b.txt", "", "", "", "", "2024"⟩], 2,
          [("t_b.txt", [7])]⟩ (some ⟨"a.txt", [1], none⟩) ⟨none, none, none⟩ "t" "u"
          false).1 = .created i)) ∧
    (∀ s ∈ uploadStates ⟨[⟨1, "t_b.txt", "b.txt", "", "", "", "", "2024"⟩], 2,
        [("t_b.txt", [7])]⟩ (some ⟨"a.txt", [1], none⟩) ⟨none, none, none⟩ "t" "u" true,
      danglingFree s = true) :=
  ⟨(C8_blob_before_row ⟨[⟨1, "t_b.txt", "b.txt", "", "", "", "", "2024"⟩], 2,
      [("t_b.txt", [7])]⟩ (some ⟨"a.txt", [1], none⟩) ⟨none, none, none⟩ "t" "u").1,
    (C8_blob_before_row ⟨[⟨1, "t_b.txt", "b.txt", "", "", "", "", "2024"⟩], 2,
      [("t_b.txt", [7])]⟩ (some ⟨"a.txt", [1], none⟩) ⟨none, none, none⟩ "t" "u").2
      true (by decide)⟩

/-- C9: a query consisting only of whitespace (the empty query included)
is stripped to nothing by `app.py` line 262, so listing with it equals
listing with no query parameter at all. -/
theorem C9_whitespace_query (st : ServerState) (q : String)
    (h : q.data.all isPySpace = true) :
    list_items st (some q) = list_items st none := by
  have h1 : processedQuery (some q) = processedQuery none := by
    show pyLower (pyStrip q) = pyLower (pyStrip "")
    rw [pyStrip_eq_empty h]
    decide
  rw [list_items, list_items, h1]

/-- Witness for C9: a three-space query at a concrete two-item state. -/
theorem C9_whitespace_query_witness :
    list_items ⟨[⟨1, "t_a.txt", "a.txt", "", "x", "", "", "2024"⟩,
        ⟨2, "t_b.txt", "b.txt", "", "y", "", "", "2025"⟩], 3, []⟩ (some "   ") =
    list_items ⟨[⟨1, "t_a.txt", "a.txt", "", "x", "", "", "2024"⟩,
        ⟨2, "t_b.txt", "b.txt", "", "y", "", "", "2025"⟩], 3, []⟩ none :=
  C9_whitespace_query _ "   " (by decide)

/-- C1: a successful upload can be downloaded by the returned id; the
bytes are identical to the uploaded payload and the attachment filename
is the sanitized original filename (`app.py` lines 229-258 and 287-297;
the sanitized name of an allowed file is never empty, so the
`original_name or filename` fallback of line 296 picks it). -/
theorem C1_round_trip {st : ServerState} {f : UploadedFile} {form : FormData} {ts ua : String}
    (h1 : ¬ f.filename = "") (h2 : allowed_file f.filename = true) :
    ∃ st2 : ServerState,
      upload st (some f) form ts ua true = (.created st.nextId, st2) ∧
      download st2 st.nextId = some (secure_filename f.filename, f.content) := by
  refine ⟨_, upload_success h1 h2, ?_⟩
  have hfind : (newItem st f form ts ua :: st.rows).find?
      (fun r => r.id == st.nextId) = some (newItem st f form ts ua) := by
    have h : (fun r : Item => r.id == st.nextId) (newItem st f form ts ua) = true :=
      beq_self_eq_true st.nextId
    rw [List.find?_cons_of_pos st.rows h]
  have horig : ¬ (newItem st f form ts ua).original_name = "" :=
    secure_filename_ne_empty h2
  have hblob : lookupBlob ((ts ++ "_" ++ secure_filename f.filename, f.content) :: st.blobs)
      (newItem st f form ts ua).filename = some f.content := by
    have hfn : (newItem st f form ts ua).filename =
        ts ++ "_" ++ secure_filename f.filename := rfl
    rw [hfn, lookupBlob_cons_self]
  exact download_eval hfind horig hblob

/-- Witness for C1 at a concrete upload. -/
theorem C1_round_trip_witness :
    ∃ st2 : ServerState,
      upload ⟨[], 1, []⟩ (some ⟨"scan1.jpg", [10, 20, 30], some "image/jpeg"⟩)
          ⟨some "Palm leaf 1", none, none⟩ "20240101000000000000" "2024-01-01T00:00:00"
          true = (.created 1, st2) ∧
      download st2 1 = some (secure_filename "scan1.jpg", [10, 20, 30]) :=
  C1_round_trip (by decide) (by decide)

/-- Concatenations of equal-length distinct prefixes stay distinct. -/
theorem storedName_inj {ts1 ts2 o1 o2 : String}
    (hlen : ts1.data.length = ts2.data.length) (hne : ¬ ts1 = ts2) :
    ¬ (ts1 ++ "_" ++ o1 = ts2 ++ "_" ++ o2) := by
  intro he
  apply hne
  apply String.ext
  have hd := congrArg String.data he
  simp only [String.data_append] at hd
  rw [List.append_assoc, List.append_assoc] at hd
  exact (List.append_inj hd hlen).1

/-- C5: the claim as frozen says two creates never reuse a `storedName`,
even with the same original name in rapid succession.  The name is
`<timestamp>_<sanitized name>` (`app.py` lines 240-241), so two uploads
of `a.txt` observing the same microsecond timestamp collide: both rows
carry the same stored name, the second blob overwrites the first, and
downloading the first id yields the second payload. -/
theorem C5_counterexample :
    ((upload (upload ⟨[], 1, []⟩ (some ⟨"a.txt", [1], none⟩) ⟨none, none, none⟩
          "20240101000000000000" "u1" true).2
        (some ⟨"a.txt", [2], none⟩) ⟨none, none, none⟩ "20240101000000000000" "u2"
        true).2.rows.map Item.filename =
      ["20240101000000000000_a.txt", "20240101000000000000_a.txt"]) ∧
    (download (upload (upload ⟨[], 1, []⟩ (some ⟨"a.txt", [1], none⟩) ⟨none, none, none⟩
          "20240101000000000000" "u1" true).2
        (some ⟨"a.txt", [2], none⟩) ⟨none, none, none⟩ "20240101000000000000" "u2"
        true).2 1).map Prod.snd = some [2] := by
  constructor
  · decide
  · decide

/-- C5 (amended): two successful creates whose (fixed-width) timestamps
differ produce distinct `storedName`s, and each id downloads its own
payload; when the timestamps and sanitized names are both equal the
stored name is reused (the collision left open in spec section 9). -/
theorem C5_storedName_unique {st : ServerState} {f1 f2 : UploadedFile}
    {form1 form2 : FormData} {ts1 ts2 ua1 ua2 : String}
    (h11 : ¬ f1.filename = "") (h12 : allowed_file f1.filename = true)
    (h21 : ¬ f2.filename = "") (h22 : allowed_file f2.filename = true)
    (hlen : ts1.data.length = ts2.data.length) (hne : ¬ ts1 = ts2) :
    ∃ st1 st2 : ServerState,
      upload st (some f1) form1 ts1 ua1 true = (.created st.nextId, st1) ∧
      upload st1 (some f2) form2 ts2 ua2 true = (.created (st.nextId + 1), st2) ∧
      ¬ (ts1 ++ "_" ++ secure_filename f1.filename =
          ts2 ++ "_" ++ secure_filename f2.filename) ∧
      (download st2 st.nextId).map Prod.snd = some f1.content ∧
      (download st2 (st.nextId + 1)).map Prod.snd = some f2.content := by
  have hu1 := @upload_success st f1 form1 ts1 ua1 h11 h12
  refine ⟨_, _, hu1, upload_success h21 h22, storedName_inj hlen hne, ?_, ?_⟩
  · have hh2 : ¬ (fun r : Item => r.id == st.nextId)
        (newItem ⟨newItem st f1 form1 ts1 ua1 :: st.rows, st.nextId + 1,
          (ts1 ++ "_" ++ secure_filename f1.filename, f1.content) :: st.blobs⟩
          f2 form2 ts2 ua2) = true := by
      show ¬ (st.nextId + 1 == st.nextId) = true
      simp
    have hh1 : (fun r : Item => r.id == st.nextId) (newItem st f1 form1 ts1 ua1) = true :=
      beq_self_eq_true st.nextId
    have hfind1 : (newItem ⟨newItem st f1 form1 ts1 ua1 :: st.rows, st.nextId + 1,
        (ts1 ++ "_" ++ secure_filename f1.filename, f1.content) :: st.blobs⟩
          f2 form2 ts2 ua2 :: newItem st f1 form1 ts1 ua1 :: st.rows).find?
        (fun r => r.id == st.nextId) = some (newItem st f1 form1 ts1 ua1) := by
      rw [@List.find?_cons_of_neg Item (fun r => r.id == st.nextId)
          (newItem ⟨newItem st f1 form1 ts1 ua1 :: st.rows, st.nextId + 1,
            (ts1 ++ "_" ++ secure_filename f1.filename, f1.content) :: st.blobs⟩
            f2 form2 ts2 ua2)
          (newItem st f1 form1 ts1 ua1 :: st.rows) hh2,
        @List.find?_cons_of_pos Item (fun r => r.id == st.nextId)
          (newItem st f1 form1 ts1 ua1) st.rows hh1]
    have hsneq : ¬ (ts2 ++ "_" ++ secure_filename f2.filename =
        ts1 ++ "_" ++ secure_filename f1.filename) :=
      storedName_inj hlen.symm (fun he => hne he.symm)
    have hblob1 : lookupBlob
        ((ts2 ++ "_" ++ secure_filename f2.filename, f2.content) ::
          (ts1 ++ "_" ++ secure_filename f1.filename, f1.content) :: st.blobs)
        (newItem st f1 form1 ts1 ua1).filename = some f1.content := by
      have hfn : (newItem st f1 form1 ts1 ua1).filename =
          ts1 ++ "_" ++ secure_filename f1.filename := rfl
      rw [hfn, lookupBlob_cons_of_ne hsneq, lookupBlob_cons_self]
    rw [download_eval hfind1 (secure_filename_ne_empty h12) hblob1]
    rfl
  · have hh : (fun r : Item => r.id == st.nextId + 1)
        (newItem ⟨newItem st f1 form1 ts1 ua1 :: st.rows, st.nextId + 1,
          (ts1 ++ "_" ++ secure_filename f1.filename, f1.content) :: st.blobs⟩
          f2 form2 ts2 ua2) = true :=
      beq_self_eq_true (st.nextId + 1)
    have hfind2 : (newItem ⟨newItem st f1 form1 ts1 ua1 :: st.rows, st.nextId + 1,
        (ts1 ++ "_" ++ secure_filename f1.filename, f1.content) :: st.blobs⟩
          f2 form2 ts2 ua2 :: newItem st f1 form1 ts1 ua1 :: st.rows).find?
        (fun r => r.id == st.nextId + 1) =
        some (newItem ⟨newItem st f1 form1 ts1 ua1 :: st.rows, st.nextId + 1,
          (ts1 ++ "_" ++ secure_filename f1.filename, f1.content) :: st.blobs⟩
          f2 form2 ts2 ua2) := by
      rw [@List.find?_cons_of_pos Item (fun r => r.id == st.nextId + 1)
          (newItem ⟨newItem st f1 form1 ts1 ua1 :: st.rows, st.nextId + 1,
            (ts1 ++ "_" ++ secure_filename f1.filename, f1.content) :: st.blobs⟩
            f2 form2 ts2 ua2)
          (newItem st f1 form1 ts1 ua1 :: st.rows) hh]
    have hblob2 : lookupBlob
        ((ts2 ++ "_" ++ secure_filename f2.filename, f2.content) ::
          (ts1 ++ "_" ++ secure_filename f1.filename, f1.content) :: st.blobs)
        (newItem ⟨newItem st f1 form1 ts1 ua1 :: st.rows, st.nextId + 1,
          (ts1 ++ "_" ++ secure_filename f1.filename, f1.content) :: st.blobs⟩
          f2 form2 ts2 ua2).filename = some f2.content := by
      have hfn : (newItem ⟨newItem st f1 form1 ts1 ua1 :: st.rows, st.nextId + 1,
          (ts1 ++ "_" ++ secure_filename f1.filename, f1.content) :: st.blobs⟩
            f2 form2 ts2 ua2).filename =
          ts2 ++ "_" ++ secure_filename f2.filename := rfl
      rw [hfn, lookupBlob_cons_self]
    rw [download_eval hfind2 (secure_filename_ne_empty h22) hblob2]
    rfl

/-- Witness for C5 (amended): two concrete uploads of `a.txt` one
microsecond apart. -/
theorem C5_storedName_unique_witness :
    ∃ st1 st2 : ServerState,
      upload ⟨[], 1, []⟩ (some ⟨"a.txt", [1], none⟩) ⟨none, none, none⟩
          "20240101000000000000" "u1" true = (.created 1, st1) ∧
      upload st1 (some ⟨"a.txt", [2], none⟩) ⟨none, none, none⟩
          "20240101000000000001" "u2" true = (.created 2, st2) ∧
      ¬ ("20240101000000000000" ++ "_" ++ secure_filename "a.txt" =
          "20240101000000000001" ++ "_" ++ secure_filename "a.txt") ∧
      (download st2 1).map Prod.snd = some [1] ∧
      (download st2 2).map Prod.snd = some [2] :=
  C5_storedName_unique (by decide) (by decide) (by decide) (by decide) (by decide) (by decide)

/-- C3: the claim as frozen says a non-empty query returns exactly the
items containing it as a case-insensitive substring; the code
interpolates the query into an SQL LIKE pattern `%q%` with no escaping
(`app.py` line 266), so a query holding a LIKE wildcard over-matches:
the query `_` returns an item none of whose fields contain an
underscore. -/
theorem C3_counterexample :
    ¬ processedQuery (some "_") = "" ∧
    list_items ⟨[⟨1, "t", "ab.txt", "", "ab", "", "", "2024"⟩], 2, []⟩ (some "_") =
      [⟨1, "t", "ab.txt", "", "ab", "", "", "2024"⟩] ∧
    substrRow (processedQuery (some "_"))
      ⟨1, "t", "ab.txt", "", "ab", "", "", "2024"⟩ = false := by
  refine ⟨by decide, by decide, by decide⟩

/-- C3 (amended): listing with an empty (after stripping) query returns
all rows in non-increasing `uploaded_at` order; a non-empty query free
of the SQL LIKE wildcards `%` and `_` returns exactly the rows where the
stripped lower-cased query occurs as a substring of the lower-cased
title, description or tags, in the same order (`app.py` lines 260-275). -/
theorem C3_list_search (st : ServerState) (qarg : Option String) :
    (processedQuery qarg = "" →
      (list_items st qarg).Perm st.rows ∧
      List.Sorted uploadedDesc (list_items st qarg)) ∧
    (¬ processedQuery qarg = "" → noWild (processedQuery qarg).data = true →
      (list_items st qarg).Perm (st.rows.filter (substrRow (processedQuery qarg))) ∧
      List.Sorted uploadedDesc (list_items st qarg)) := by
  constructor
  · intro he
    have hli : list_items st qarg = List.insertionSort uploadedDesc st.rows := by
      simp only [list_items, he, reduceIte]
    rw [hli]
    exact ⟨List.perm_insertionSort uploadedDesc st.rows,
      List.sorted_insertionSort uploadedDesc st.rows⟩
  · intro hne hw
    have hfilter : st.rows.filter (rowMatches (processedQuery qarg)) =
        st.rows.filter (substrRow (processedQuery qarg)) :=
      List.filter_congr (fun r _ => rowMatches_eq_substrRow r hw)
    have hli : list_items st qarg = List.insertionSort uploadedDesc
        (st.rows.filter (rowMatches (processedQuery qarg))) := by
      simp only [list_items]
      rw [if_neg hne]
    rw [hli, hfilter]
    exact ⟨List.perm_insertionSort uploadedDesc _, List.sorted_insertionSort uploadedDesc _⟩

/-- Witness for C3 (amended): the query `" Ra "` against a concrete
one-item state whose title is "Ramayana palm-leaf page". -/
theorem C3_list_search_witness :
    (list_items ⟨[⟨1, "t", "a.txt", "", "Ramayana palm-leaf page", "", "", "2024"⟩], 2, []⟩
        (some " Ra ")).Perm
      ([⟨1, "t", "a.txt", "", "Ramayana palm-leaf page", "", "", "2024"⟩].filter
        (substrRow (processedQuery (some " Ra ")))) ∧
    List.Sorted uploadedDesc
      (list_items ⟨[⟨1, "t", "a.txt", "", "Ramayana palm-leaf page", "", "", "2024"⟩], 2, []⟩
        (some " Ra ")) :=
  (C3_list_search ⟨[⟨1, "t", "a.txt", "", "Ramayana palm-leaf page", "", "", "2024"⟩], 2, []⟩
      (some " Ra ")).2 (by decide) (by decide)

end Heritage
